import Mathlib

/-!
Verification development for the contractor-application system: a shallow
embedding of its Aggregator/Materializer pair, its Eligibility Evaluator and
its Enrichment Service, with theorems settling the specification's claims.

The evaluator logic is embedded from `04_shortlist_evaluator.py`
(tier-1 substring matching, location blacklist, tenure computation with the
50-year cap) and `src/shortlist_evaluator.py` (compensation criterion with
the currency guard); the Aggregator/Materializer from `src/json_compressor.py`,
`src/json_decompressor.py` and `src/airtable_client.py` (with the
`03_compress_data.py` aggregation variant embedded separately); the
Enrichment Service from `05_llm_evaluator.py` (retry/backoff),
`src/llm_evaluator.py` (plain-text response parsing) and
`scripts/llm_evaluator.py` (content hashing).

Python strings are modelled through their character lists; `str.lower`,
`str.strip`, `str.replace`, the `in` substring test, `str.split` and
`int(...)` are given faithful executable models below (ASCII case folding,
as the data in this system is ASCII).
-/

namespace ContractorApp

/-! ## Python string primitives -/

/-- Model of Python `str.lower()` (ASCII case folding, matching the data
this system processes). -/
def pyLower (s : String) : String := ⟨s.data.map Char.toLower⟩

/-- Trim whitespace from the front and the back of a character list. -/
def trimChars (l : List Char) : List Char :=
  ((l.dropWhile Char.isWhitespace).reverse.dropWhile Char.isWhitespace).reverse

/-- Model of Python `str.strip()`. -/
def pyStrip (s : String) : String := ⟨trimChars s.data⟩

/-- Model of Python `needle in hay` (contiguous substring test), by scanning
every suffix of the haystack. -/
def containsSub (needle : List Char) : List Char → Bool
  | [] => needle.isEmpty
  | c :: rest => needle.isPrefixOf (c :: rest) || containsSub needle rest

/-- Model of Python `hay.__contains__(needle)` on strings. -/
def pyContains (hay needle : String) : Bool := containsSub needle.data hay.data

/-- Model of Python `s.startswith(pre)`. -/
def pyStartsWith (s pre : String) : Bool := pre.data.isPrefixOf s.data

/-- Replace every non-overlapping occurrence of the pattern `p :: ps`,
scanning left to right, as Python `str.replace` does. Structural recursion
on a fuel that bounds the number of characters still to scan, so that the
kernel can evaluate the function on closed inputs. -/
def replaceAllAux (p : Char) (ps rep : List Char) : Nat → List Char → List Char
  | 0, l => l
  | _ + 1, [] => []
  | fuel + 1, c :: rest =>
    if (p :: ps).isPrefixOf (c :: rest) then
      rep ++ replaceAllAux p ps rep fuel (rest.drop ps.length)
    else
      c :: replaceAllAux p ps rep fuel rest

/-- Model of Python `s.replace(pat, rep)` for a non-empty pattern (every
pattern this system replaces is non-empty; an empty pattern is a no-op
here). -/
def pyReplace (s pat rep : String) : String :=
  match pat.data with
  | [] => s
  | p :: ps => ⟨replaceAllAux p ps rep.data s.data.length s.data⟩

/-- Split a character list at every separator character, keeping empty
pieces, as Python `str.split(sep)` does. -/
def splitOnChar (sep : Char) : List Char → List (List Char)
  | [] => [[]]
  | c :: rest =>
    let r := splitOnChar sep rest
    if c = sep then [] :: r
    else
      match r with
      | [] => [[c]]
      | h :: t => (c :: h) :: t

/-- Model of Python `s.split("\n")`. -/
def pySplitNewline (s : String) : List String :=
  (splitOnChar (Char.ofNat 10) s.data).map (fun l => ⟨l⟩)

/-- Model of Python whitespace `str.split()` (no argument): split on runs of
whitespace, dropping empty pieces. -/
def pySplitWhite (s : String) : List String :=
  ((s.data.splitOnP Char.isWhitespace).filter (fun w => w ≠ [])).map (fun l => ⟨l⟩)

/-- Numeric value of a list of decimal digits. -/
def digitsVal (l : List Char) : Nat :=
  l.foldl (fun acc c => acc * 10 + (c.toNat - 48)) 0

/-- Model of Python `int(s)` for the forms this system meets: surrounding
whitespace, an optional sign, then at least one ASCII digit; anything else
raises `ValueError`, modelled as `none`. -/
def pyInt? (s : String) : Option Int :=
  match trimChars s.data with
  | [] => none
  | c :: rest =>
    if c = Char.ofNat 43 then
      if rest ≠ [] ∧ rest.all Char.isDigit then some (digitsVal rest) else none
    else if c = Char.ofNat 45 then
      if rest ≠ [] ∧ rest.all Char.isDigit then some (-(digitsVal rest : Int)) else none
    else if (c :: rest).all Char.isDigit then some (digitsVal (c :: rest)) else none

/-! ## Canonical snapshot data model

A snapshot is a parsed `Compressed JSON` value: three sections whose scalar
fields may each be absent (Python reads them with `dict.get(key, default)`).
`none` for a whole section models both a missing key and an empty dict,
which Python treats alike (`if "personal" in data and data["personal"]`). -/

/-- Personal section of the canonical snapshot. -/
structure PersonalSection where
  name : Option String
  email : Option String
  location : Option String
  linkedin : Option String
deriving DecidableEq, Repr

/-- One experience entry of the canonical snapshot. `endDate` carries the
JSON key `end`. -/
structure ExperienceEntry where
  company : Option String
  title : Option String
  start : Option String
  endDate : Option String
  technologies : Option String
deriving DecidableEq, Repr

/-- Salary section of the canonical snapshot. -/
structure SalarySection where
  preferred_rate : Option ℚ
  minimum_rate : Option ℚ
  currency : Option String
  availability : Option ℚ
deriving DecidableEq, Repr

/-- A parsed canonical snapshot. `experience = none` models a snapshot whose
`experience` key is missing or not a list. -/
structure CompressedData where
  personal : Option PersonalSection
  experience : Option (List ExperienceEntry)
  salary : Option SalarySection
deriving DecidableEq, Repr

/-! ## Eligibility Evaluator: experience criterion
Embedded from `04_shortlist_evaluator.py`. -/

/-- Tier-1 companies, lower-cased, as listed in `04_shortlist_evaluator.py`. -/
def TIER1_COMPANIES : List String :=
  ["google", "meta", "openai", "microsoft", "amazon", "apple",
   "netflix", "tesla", "spacex", "uber", "airbnb", "stripe"]

/-- Embedding of `check_tier1_company`: scan the experience entries and
return, with the verdict, the first company whose lower-cased name has some
tier-1 name as a substring. -/
def check_tier1_company : List ExperienceEntry → Bool × Option String
  | [] => (false, none)
  | job :: rest =>
    let company := pyLower (job.company.getD "")
    match TIER1_COMPANIES.find? (fun tier1 => pyContains company tier1) with
    | some _ => (true, some (job.company.getD ""))
    | none => check_tier1_company rest

/-! ## Eligibility Evaluator: location criterion
Embedded from `check_location` in `04_shortlist_evaluator.py`. -/

/-- Blacklisted deceptive near-matches, checked before any positive match. -/
def LOCATION_BLACKLIST : List String := ["australia", "austria", "indonesia", "indiana"]

/-- Approved country codes for exact word matching. -/
def APPROVED_COUNTRY_CODES : List String :=
  ["us", "usa", "can", "ca", "uk", "gb", "de", "deu", "in", "ind"]

/-- Approved location phrases (countries, demonyms, codes with padding, and
major cities), as listed in `04_shortlist_evaluator.py`. -/
def APPROVED_LOCATIONS : List String :=
  ["united states", "usa", "us ", " us", "america", "american",
   "new york", "nyc", "san francisco", "sf", "los angeles", "la",
   "seattle", "wa", "austin", "tx", "boston", "ma", "chicago", "il",
   "canada", "canadian", "ca ",
   "toronto", "on", "vancouver", "bc", "montreal", "qc",
   "united kingdom", "uk ", " uk", "britain", "british", "england", "scotland", "wales",
   "london", "manchester", "birmingham", "edinburgh",
   "germany", "deutschland", "german", "de ",
   "berlin", "munich", "hamburg", "frankfurt", "cologne",
   "india", "indian", "in ",
   "bangalore", "bengaluru", "mumbai", "delhi", "new delhi", "hyderabad", "chennai", "pune"]

/-- Embedding of `check_location`: empty string fails; any blacklisted term
anywhere in the lower-cased, stripped string fails before anything else;
then exact country-code words, then padded approved phrases. -/
def check_location (location_str : String) : Bool :=
  if location_str = "" then false
  else
    let location_lower := pyStrip (pyLower location_str)
    if LOCATION_BLACKLIST.any (fun b => pyContains location_lower b) then false
    else
      let location_words := pySplitWhite ((pyReplace (pyReplace location_lower "," " ") "." " "))
      if location_words.any (fun word => APPROVED_COUNTRY_CODES.contains (pyStrip word)) then true
      else
        let padded_location := " " ++ location_lower ++ " "
        if APPROVED_LOCATIONS.any (fun approved =>
            pyContains padded_location (" " ++ approved ++ " ") ||
            pyContains padded_location (" " ++ approved ++ ",") ||
            pyContains padded_location ("," ++ approved ++ " ")) then true
        else false

/-! ## Eligibility Evaluator: tenure computation
Embedded from `calculate_years_of_experience` in `04_shortlist_evaluator.py`.
Dates are produced there by `dateutil.parser.parse`; the parser is abstracted
as a function from date strings to day numbers (`none` models a parse
failure, which the source catches and turns into a skipped entry), and
`datetime.now()` as the day number `now`. Day arithmetic is exact in `ℚ`:
`365.25` and the cap `365.25 * 50 = 18262.5` are dyadic, hence exact floats
in the source as well. -/

/-- Strings an end date may take to mean the position is ongoing. -/
def PRESENT_WORDS : List String := ["present", "current", "ongoing", "now"]

/-- One year in days, `365.25`, as used by the source. -/
def daysPerYear : ℚ := 36525 / 100

/-- Days contributed by one experience entry: skip on a missing or
unparseable start, parse the end (ongoing markers and empty ends mean
`now`), skip future starts and ends before starts, and cap any span above
50 years at exactly 50 years. -/
def entryDays (parseDate : String → Option Int) (now : Int) (job : ExperienceEntry) : ℚ :=
  let start_str := pyStrip (job.start.getD "")
  let end_str := pyStrip (job.endDate.getD "")
  if start_str = "" then 0
  else
    match parseDate start_str with
    | none => 0
    | some start =>
      let endParsed : Option Int :=
        if end_str = "" ∨ PRESENT_WORDS.contains (pyLower end_str) then some now
        else parseDate end_str
      match endParsed with
      | none => 0
      | some endDay =>
        if now < start then 0
        else if endDay < start then 0
        else
          let days : ℚ := ((endDay - start : Int) : ℚ)
          if daysPerYear * 50 < days then daysPerYear * 50 else days

/-- Embedding of `calculate_years_of_experience`: total capped days over all
entries, divided by `365.25`. -/
def calculate_years_of_experience
    (parseDate : String → Option Int) (now : Int) (jobs : List ExperienceEntry) : ℚ :=
  (jobs.map (entryDays parseDate now)).sum / daysPerYear

/-! ## Eligibility Evaluator: compensation criterion
Embedded from `evaluate_compensation_criteria` in `src/shortlist_evaluator.py`:
the only variant carrying the currency guard the specification describes.
No currency conversion is performed anywhere: a non-default currency is
answered with a fixed failure reason. -/

/-- Embedding of `evaluate_compensation_criteria`: missing or empty salary
section fails; a currency other than the default unit fails with the
not-comparable reason; otherwise the rate and availability thresholds are
checked. -/
def evaluate_compensation_criteria (data : CompressedData) : Bool × String :=
  match data.salary with
  | none => (false, "No salary preferences provided")
  | some salary =>
    let preferred_rate := salary.preferred_rate.getD 0
    let currency := salary.currency.getD "USD"
    let availability := salary.availability.getD 0
    if currency ≠ "USD" then
      (false, "Currency is " ++ currency ++ ", not USD (cannot compare rates)")
    else if preferred_rate ≤ 100 ∧ 20 ≤ availability then
      (true, "$" ++ toString preferred_rate ++ "/hr (<=$100) and "
        ++ toString availability ++ " hrs/week (>=20)")
    else if ¬(preferred_rate ≤ 100) then
      (false, "Preferred rate $" ++ toString preferred_rate ++ "/hr exceeds $100/hr")
    else
      (false, "Availability " ++ toString availability ++ " hrs/week is less than 20 hrs/week")

/-! ## Enrichment Service: plain-text response parsing
Embedded from `parse_llm_response` in `src/llm_evaluator.py`. -/

/-- Result record of `parse_llm_response`, with the source's defaults. -/
structure LLMParseResult where
  summary : String
  score : Int
  issues : String
  follow_ups : String
deriving DecidableEq, Repr

/-- The field a multi-line continuation currently extends
(`current_field` in the source; `Score:` resets it to `none`). -/
inductive CurField where
  | summary
  | issues
  | follow_ups
deriving DecidableEq, Repr

/-- One iteration of the parsing loop of `parse_llm_response` over a raw
line. -/
def parseLine (acc : LLMParseResult × Option CurField) (rawLine : String) :
    LLMParseResult × Option CurField :=
  let line := pyStrip rawLine
  if pyStartsWith line "Summary:" then
    ({ acc.1 with summary := pyStrip (pyReplace line "Summary:" "") }, some CurField.summary)
  else if pyStartsWith line "Score:" then
    match pyInt? (pyStrip (pyReplace line "Score:" "")) with
    | some n => ({ acc.1 with score := n }, none)
    | none => ({ acc.1 with score := 0 }, none)
  else if pyStartsWith line "Issues:" then
    ({ acc.1 with issues := pyStrip (pyReplace line "Issues:" "") }, some CurField.issues)
  else if pyStartsWith line "Follow-Ups:" then
    ({ acc.1 with follow_ups := pyStrip (pyReplace line "Follow-Ups:" "") }, some CurField.follow_ups)
  else
    match acc.2 with
    | some CurField.summary =>
      if line ≠ "" then ({ acc.1 with summary := acc.1.summary ++ " " ++ line }, acc.2) else acc
    | some CurField.issues =>
      if line ≠ "" then ({ acc.1 with issues := acc.1.issues ++ " " ++ line }, acc.2) else acc
    | some CurField.follow_ups =>
      if line ≠ "" then
        ({ acc.1 with follow_ups :=
            if acc.1.follow_ups ≠ "" then acc.1.follow_ups ++ "\n" ++ line else line }, acc.2)
      else acc
    | none => acc

/-- The lines `parse_llm_response` iterates over:
`response_text.strip().split("\n")`. -/
def responseLines (response_text : String) : List String :=
  pySplitNewline (pyStrip response_text)

/-- Embedding of `parse_llm_response`: a total function into a result
record (the source raises nothing); all fields default as in the source
(`summary`, `issues`, `follow_ups` to the empty string, `score` to 0). -/
def parse_llm_response (response_text : String) : LLMParseResult :=
  ((responseLines response_text).foldl parseLine
    ({ summary := "", score := 0, issues := "", follow_ups := "" }, none)).1

/-! ## Enrichment Service: retry policy
Embedded from `call_openai_with_retry` in `05_llm_evaluator.py`, whose error
taxonomy the specification describes; the backoff factor is
`base * 2 ^ attempt`, with the configured base delay (`LLM_RETRY_DELAY`,
default 1 second, hard-wired to 1 in this variant) and `max_retries`
defaulting to 3. The provider is abstracted as a function from the attempt
number to that attempt's outcome. -/

/-- Outcome of one provider call, mirroring the handlers in the source:
rate limiting, connection errors and provider-side API errors are the
retried (transient) classes; an unexpected response shape or empty content
returns `none` at once; any other exception returns `none` at once. -/
inductive ProviderOutcome where
  | ok
  | badResponse
  | rateLimit
  | connectionError
  | apiError
  | otherError
deriving DecidableEq, Repr

/-- The outcomes the source retries. -/
def isTransient : ProviderOutcome → Bool
  | ProviderOutcome.rateLimit => true
  | ProviderOutcome.connectionError => true
  | ProviderOutcome.apiError => true
  | _ => false

/-- The outcomes on which the source gives up immediately (returns `None`
without touching the remaining retry budget). -/
def isImmediateAbort : ProviderOutcome → Bool
  | ProviderOutcome.badResponse => true
  | ProviderOutcome.otherError => true
  | _ => false

/-- Trace of one run of the retry loop: how many provider calls were made,
every backoff sleep as an (attempt number, seconds) pair, and whether a
parsed evaluation was returned. -/
structure RetryTrace where
  attemptsMade : Nat
  sleeps : List (Nat × ℚ)
  succeeded : Bool
deriving DecidableEq, Repr

/-- The retry loop from attempt number `attempt` with `remaining` loop
iterations left: success and the immediate-abort outcomes stop the loop; a
rate limit sleeps `base * 2 ^ attempt` unconditionally; connection and API
errors sleep only when another attempt remains (`attempt < max_retries - 1`
in the source). -/
def retryAux (outcomes : Nat → ProviderOutcome) (base : ℚ) (max_retries : Nat) :
    Nat → Nat → RetryTrace
  | _, 0 => { attemptsMade := 0, sleeps := [], succeeded := false }
  | attempt, remaining + 1 =>
    match outcomes attempt with
    | ProviderOutcome.ok => { attemptsMade := 1, sleeps := [], succeeded := true }
    | ProviderOutcome.badResponse => { attemptsMade := 1, sleeps := [], succeeded := false }
    | ProviderOutcome.otherError => { attemptsMade := 1, sleeps := [], succeeded := false }
    | ProviderOutcome.rateLimit =>
      let rest := retryAux outcomes base max_retries (attempt + 1) remaining
      { attemptsMade := rest.attemptsMade + 1,
        sleeps := (attempt, base * 2 ^ attempt) :: rest.sleeps,
        succeeded := rest.succeeded }
    | ProviderOutcome.connectionError =>
      let rest := retryAux outcomes base max_retries (attempt + 1) remaining
      { attemptsMade := rest.attemptsMade + 1,
        sleeps := (if attempt + 1 < max_retries then [(attempt, base * 2 ^ attempt)] else [])
          ++ rest.sleeps,
        succeeded := rest.succeeded }
    | ProviderOutcome.apiError =>
      let rest := retryAux outcomes base max_retries (attempt + 1) remaining
      { attemptsMade := rest.attemptsMade + 1,
        sleeps := (if attempt + 1 < max_retries then [(attempt, base * 2 ^ attempt)] else [])
          ++ rest.sleeps,
        succeeded := rest.succeeded }

/-- Embedding of `call_openai_with_retry`: run the loop
`for attempt in range(max_retries)` from attempt 0. -/
def call_openai_with_retry (outcomes : Nat → ProviderOutcome) (base : ℚ)
    (max_retries : Nat) : RetryTrace :=
  retryAux outcomes base max_retries 0 max_retries

/-! ## Record store model

The store is viewed through one applicant's linked records, exactly the
slice every Aggregator/Materializer call reads and writes (the Airtable
client filters each child table by the applicant's record id). Record
fields are `Option`-valued: a key can be absent from a record's field dict,
and the Python code reads every field with `dict.get(key, default)`. -/

/-- Fields of one PersonalDetails record. -/
structure PersonalFields where
  fullName : Option String
  email : Option String
  location : Option String
  linkedin : Option String
deriving DecidableEq, Repr

/-- Fields of one WorkExperience record. -/
structure WorkFields where
  company : Option String
  title : Option String
  startDate : Option String
  endDate : Option String
  technologies : Option String
deriving DecidableEq, Repr

/-- Fields of one SalaryPreference record. -/
structure SalaryFields where
  preferredRate : Option ℚ
  minimumRate : Option ℚ
  currency : Option String
  availability : Option ℚ
deriving DecidableEq, Repr

/-- A stored record: a stable identity plus its field dict. -/
structure StoreRec (α : Type) where
  id : Nat
  fields : α
deriving DecidableEq, Repr

/-- One applicant's slice of the record store: the linked child records (in
the order the filtered queries return them), the applicant's snapshot
field, and a fresh-id counter for newly created records. -/
structure Store where
  personalRecs : List (StoreRec PersonalFields)
  workRecs : List (StoreRec WorkFields)
  salaryRecs : List (StoreRec SalaryFields)
  snapshot : Option CompressedData
  nextId : Nat
deriving DecidableEq, Repr

/-! ## Aggregator (compress)
Embedded from `compress_applicant_data` in `src/json_compressor.py`: each
section is built from the first linked record (`records[0]`) with
empty-string/zero defaults per scalar field; a missing child yields an empty
section (it never fails); the experience section lists every linked record
in order. -/

/-- Personal section built from one PersonalDetails record. -/
def personalSectionOf (f : PersonalFields) : PersonalSection :=
  { name := some (f.fullName.getD ""), email := some (f.email.getD ""),
    location := some (f.location.getD ""), linkedin := some (f.linkedin.getD "") }

/-- Experience entry built from one WorkExperience record. -/
def experienceEntryOf (f : WorkFields) : ExperienceEntry :=
  { company := some (f.company.getD ""), title := some (f.title.getD ""),
    start := some (f.startDate.getD ""), endDate := some (f.endDate.getD ""),
    technologies := some (f.technologies.getD "") }

/-- Salary section built from one SalaryPreference record. -/
def salarySectionOf (f : SalaryFields) : SalarySection :=
  { preferred_rate := some (f.preferredRate.getD 0),
    minimum_rate := some (f.minimumRate.getD 0),
    currency := some (f.currency.getD "USD"),
    availability := some (f.availability.getD 0) }

/-- Embedding of `compress_applicant_data` (`src/json_compressor.py`). -/
def compress_applicant_data (s : Store) : CompressedData :=
  { personal := s.personalRecs.head?.map (fun r => personalSectionOf r.fields),
    experience := some (s.workRecs.map (fun r => experienceEntryOf r.fields)),
    salary := s.salaryRecs.head?.map (fun r => salarySectionOf r.fields) }

/-! ## Aggregator, script variant
Embedded from `compress_applicant_data` in `03_compress_data.py`: this
variant returns `None` (and the caller then skips the snapshot write) when
the personal link, the work-experience link, or the salary link resolves to
zero records. -/

/-- Embedding of the `03_compress_data.py` aggregation: `none` models the
`return None` paths of the source. -/
def compress_applicant_data_v03 (s : Store) : Option CompressedData :=
  match s.personalRecs.head? with
  | none => none
  | some pr =>
    if s.workRecs.isEmpty then none
    else
      match s.salaryRecs.head? with
      | none => none
      | some sr =>
        some { personal := some (personalSectionOf pr.fields),
               experience := some (s.workRecs.map (fun r => experienceEntryOf r.fields)),
               salary := some (salarySectionOf sr.fields) }

/-- The script's per-applicant step: write the snapshot only when
aggregation produced one; on `None` the applicant is skipped and the store,
including any previous snapshot, is untouched. -/
def compress_step_v03 (s : Store) : Store :=
  match compress_applicant_data_v03 s with
  | none => s
  | some d => { s with snapshot := some d }

/-! ## Materializer (decompress)
Embedded from `decompress_applicant_data` in `src/json_decompressor.py` and
the upsert methods of `src/airtable_client.py`. Every store write is also
recorded as an operation, so frame conditions can be stated. -/

/-- One write against the record store. -/
inductive StoreOp where
  | updatePersonal (id : Nat) (fields : PersonalFields)
  | createPersonal (fields : PersonalFields)
  | updateSalary (id : Nat) (fields : SalaryFields)
  | createSalary (fields : SalaryFields)
  | deleteWork (id : Nat)
  | createWork (fields : WorkFields)
deriving DecidableEq, Repr

/-- Does the operation touch the WorkExperience collection? -/
def StoreOp.isWorkOp : StoreOp → Bool
  | StoreOp.deleteWork _ => true
  | StoreOp.createWork _ => true
  | _ => false

/-- Is the operation a PersonalDetails upsert? -/
def StoreOp.isPersonalUpsert : StoreOp → Bool
  | StoreOp.updatePersonal _ _ => true
  | StoreOp.createPersonal _ => true
  | _ => false

/-- Is the operation a SalaryPreference upsert? -/
def StoreOp.isSalaryUpsert : StoreOp → Bool
  | StoreOp.updateSalary _ _ => true
  | StoreOp.createSalary _ => true
  | _ => false

/-- Embedding of `AirtableClient.upsert_personal_details`: update the first
linked record if one exists, else create one. -/
def upsert_personal_details (s : Store) (f : PersonalFields) : Store × StoreOp :=
  match s.personalRecs with
  | [] =>
    ({ s with personalRecs := [{ id := s.nextId, fields := f }], nextId := s.nextId + 1 },
     StoreOp.createPersonal f)
  | r :: rs =>
    ({ s with personalRecs := { id := r.id, fields := f } :: rs },
     StoreOp.updatePersonal r.id f)

/-- Embedding of `AirtableClient.upsert_salary_preferences`. -/
def upsert_salary_preferences (s : Store) (f : SalaryFields) : Store × StoreOp :=
  match s.salaryRecs with
  | [] =>
    ({ s with salaryRecs := [{ id := s.nextId, fields := f }], nextId := s.nextId + 1 },
     StoreOp.createSalary f)
  | r :: rs =>
    ({ s with salaryRecs := { id := r.id, fields := f } :: rs },
     StoreOp.updateSalary r.id f)

/-- Fresh records for a full WorkExperience replacement, numbered from
`firstId` in snapshot order. -/
def freshWorkRecs (firstId : Nat) : List WorkFields → List (StoreRec WorkFields)
  | [] => []
  | f :: fs => { id := firstId, fields := f } :: freshWorkRecs (firstId + 1) fs

/-- Embedding of `AirtableClient.upsert_work_experiences`: delete every
linked WorkExperience record, then create one record per entry, in order. -/
def upsert_work_experiences (s : Store) (fs : List WorkFields) : Store × List StoreOp :=
  ({ s with workRecs := freshWorkRecs s.nextId fs, nextId := s.nextId + fs.length },
   s.workRecs.map (fun r => StoreOp.deleteWork r.id) ++ fs.map StoreOp.createWork)

/-- PersonalDetails fields written back from a personal section
(`decompress_applicant_data` reads each key with an empty-string default). -/
def personalFieldsOf (p : PersonalSection) : PersonalFields :=
  { fullName := some (p.name.getD ""), email := some (p.email.getD ""),
    location := some (p.location.getD ""), linkedin := some (p.linkedin.getD "") }

/-- WorkExperience fields written back from an experience entry. -/
def workFieldsOf (e : ExperienceEntry) : WorkFields :=
  { company := some (e.company.getD ""), title := some (e.title.getD ""),
    startDate := some (e.start.getD ""), endDate := some (e.endDate.getD ""),
    technologies := some (e.technologies.getD "") }

/-- SalaryPreference fields written back from a salary section. -/
def salaryFieldsOf (p : SalarySection) : SalaryFields :=
  { preferredRate := some (p.preferred_rate.getD 0),
    minimumRate := some (p.minimum_rate.getD 0),
    currency := some (p.currency.getD "USD"),
    availability := some (p.availability.getD 0) }

/-- Embedding of `decompress_applicant_data` (`src/json_decompressor.py`):
upsert the personal section when present and non-empty, replace the whole
WorkExperience set only when the experience list is present and non-empty
(`if experience_records:`), then upsert the salary section when present and
non-empty. Returns the new store and the operations performed. -/
def decompress_applicant_data (d : CompressedData) (s : Store) : Store × List StoreOp :=
  let stepPersonal : Store × List StoreOp :=
    match d.personal with
    | some p =>
      let r := upsert_personal_details s (personalFieldsOf p)
      (r.1, [r.2])
    | none => (s, [])
  let stepWork : Store × List StoreOp :=
    match d.experience with
    | some entries =>
      if entries.isEmpty then (stepPersonal.1, [])
      else
        let r := upsert_work_experiences stepPersonal.1 (entries.map workFieldsOf)
        (r.1, r.2)
    | none => (stepPersonal.1, [])
  let stepSalary : Store × List StoreOp :=
    match d.salary with
    | some p =>
      let r := upsert_salary_preferences stepWork.1 (salaryFieldsOf p)
      (r.1, [r.2])
    | none => (stepWork.1, [])
  (stepSalary.1, stepPersonal.2 ++ stepWork.2 ++ stepSalary.2)

/-- The round trip `materialize(aggregate(x))` on one applicant's slice,
with no external mutation between the two calls. -/
def materialize_aggregate (s : Store) : Store × List StoreOp :=
  decompress_applicant_data (compress_applicant_data s) s

/-! ## Enrichment Service: content hash
Embedded from `LLMEvaluator.compute_json_hash` in `scripts/llm_evaluator.py`:
`hashlib.sha256(json.dumps(json_data, sort_keys=True).encode()).hexdigest()`.
JSON values are modelled explicitly (objects as key-value lists in insertion
order); the canonical serialization sorts every object's entries by key, as
`sort_keys=True` does; the SHA-256 hex digest is abstracted as an arbitrary
function of the serialized string, since the claim only uses that the digest
is a deterministic function of it. -/

/-- A JSON value; an object keeps its entries in insertion order. -/
inductive Json where
  | null
  | bool (b : Bool)
  | num (q : ℚ)
  | str (s : String)
  | arr (elems : List Json)
  | obj (entries : List (String × Json))
deriving Repr

/-- Minimal JSON string escaping (quote and backslash; the exact escape
table does not matter for hash stability, only its determinism). -/
def jsonEscapeChar (c : Char) : List Char :=
  if c = Char.ofNat 34 ∨ c = Char.ofNat 92 then [Char.ofNat 92, c] else [c]

/-- Escape a string for serialization. -/
def jsonEscape (s : String) : String :=
  ⟨s.data.foldr (fun c acc => jsonEscapeChar c ++ acc) []⟩

/-- Key order on serialized object entries. -/
def keyLE (p q : String × String) : Prop := p.1 ≤ q.1

instance : DecidableRel keyLE := fun p q => inferInstanceAs (Decidable (p.1 ≤ q.1))

instance : IsTotal (String × String) keyLE := ⟨fun a b => le_total a.1 b.1⟩

instance : IsTrans (String × String) keyLE := ⟨fun _ _ _ h1 h2 => le_trans h1 h2⟩

/-- Strict key order, used to identify sorted entry lists up to
permutation. -/
def keyLT (p q : String × String) : Prop := p.1 < q.1

instance : IsAntisymm (String × String) keyLT :=
  ⟨fun _ _ h1 h2 => absurd (lt_trans h1 h2) (lt_irrefl _)⟩

/-- Sort serialized object entries by key, as `sort_keys=True` does. -/
def sortPairs (l : List (String × String)) : List (String × String) :=
  List.insertionSort keyLE l

/-- Render one sorted entry with the default `": "` separator. -/
def renderPair (p : String × String) : String :=
  "\"" ++ jsonEscape p.1 ++ "\": " ++ p.2

mutual

/-- Canonical serialization: `json.dumps(·, sort_keys=True)` with the
default separators. -/
def dumps : Json → String
  | Json.null => "null"
  | Json.bool b => if b then "true" else "false"
  | Json.num q => toString q
  | Json.str s => "\"" ++ jsonEscape s ++ "\""
  | Json.arr xs => "[" ++ String.intercalate ", " (dumpsList xs) ++ "]"
  | Json.obj es =>
    "\x7b" ++ String.intercalate ", " ((sortPairs (dumpsEntries es)).map renderPair) ++ "\x7d"

/-- Serialize each array element. -/
def dumpsList : List Json → List String
  | [] => []
  | x :: xs => dumps x :: dumpsList xs

/-- Serialize each object entry's value, keeping its key. -/
def dumpsEntries : List (String × Json) → List (String × String)
  | [] => []
  | (k, v) :: es => (k, dumps v) :: dumpsEntries es

end

/-- Embedding of `compute_json_hash`, with the SHA-256 hex digest
abstracted as the function `digest` of the canonical serialization. -/
def compute_json_hash (digest : String → String) (json_data : Json) : String :=
  digest (dumps json_data)

/-! ### Snapshots as JSON values

A stored snapshot's JSON form: each object's entries may appear in any
insertion order, but the keys and field values are fixed by the snapshot's
content. `Represents` relations tie a `Json` value to snapshot content. -/

/-- The personal section's entries in the aggregator's own order; an absent
or empty section is the empty object. -/
def personalPairs : Option PersonalSection → List (String × Json)
  | none => []
  | some p =>
    [("name", Json.str (p.name.getD "")), ("email", Json.str (p.email.getD "")),
     ("location", Json.str (p.location.getD "")), ("linkedin", Json.str (p.linkedin.getD ""))]

/-- One experience entry's object entries. -/
def experiencePairs (e : ExperienceEntry) : List (String × Json) :=
  [("company", Json.str (e.company.getD "")), ("title", Json.str (e.title.getD "")),
   ("start", Json.str (e.start.getD "")), ("end", Json.str (e.endDate.getD "")),
   ("technologies", Json.str (e.technologies.getD ""))]

/-- The salary section's object entries. -/
def salaryPairs : Option SalarySection → List (String × Json)
  | none => []
  | some p =>
    [("preferred_rate", Json.num (p.preferred_rate.getD 0)),
     ("minimum_rate", Json.num (p.minimum_rate.getD 0)),
     ("currency", Json.str (p.currency.getD "USD")),
     ("availability", Json.num (p.availability.getD 0))]

/-- A JSON object whose entries are some insertion order of `pairs`. -/
def RepresentsObj (j : Json) (pairs : List (String × Json)) : Prop :=
  ∃ es, j = Json.obj es ∧ es.Perm pairs

/-- A JSON array representing the experience list, entry by entry. -/
def RepresentsExperience (j : Json) (entries : List ExperienceEntry) : Prop :=
  ∃ js, j = Json.arr js ∧
    List.Forall₂ (fun je e => RepresentsObj je (experiencePairs e)) js entries

/-- A JSON value representing a whole snapshot: three sections under the
keys `personal`, `experience` and `salary`, in any insertion order, nested
objects also in any insertion order. -/
def RepresentsSnapshot (j : Json) (d : CompressedData) : Prop :=
  ∃ jp je js entries,
    RepresentsObj jp (personalPairs d.personal) ∧
    RepresentsExperience je (d.experience.getD []) ∧
    RepresentsObj js (salaryPairs d.salary) ∧
    j = Json.obj entries ∧
    entries.Perm [("personal", jp), ("experience", je), ("salary", js)]

/-! ## Auxiliary definitions used by the statements -/

/-- Substring membership of Python strings, as a proposition. -/
def SubstringOf (needle hay : String) : Prop := needle.data <:+: hay.data

/-- Entry with company "Google LLC" and nothing else, for the spec's
worked example. -/
def googleLLCEntry : ExperienceEntry :=
  { company := some "Google LLC", title := none, start := none, endDate := none,
    technologies := none }

/-- Does a PersonalDetails record carry every scalar field? -/
def personalComplete (f : PersonalFields) : Bool :=
  f.fullName.isSome && f.email.isSome && f.location.isSome && f.linkedin.isSome

/-- Does a WorkExperience record carry every scalar field? -/
def workComplete (f : WorkFields) : Bool :=
  f.company.isSome && f.title.isSome && f.startDate.isSome && f.endDate.isSome &&
    f.technologies.isSome

/-- Does a SalaryPreference record carry every scalar field? -/
def salaryComplete (f : SalaryFields) : Bool :=
  f.preferredRate.isSome && f.minimumRate.isSome && f.currency.isSome &&
    f.availability.isSome

/-- A store whose three child records carry every scalar field: a concrete
round-trip input. -/
def sampleCompleteStore : Store :=
  { personalRecs := [{ id := 0, fields :=
      { fullName := some "Jane Doe", email := some "jane@example.com",
        location := some "New Delhi, India", linkedin := some "linkedin.com/in/jane" } }],
    workRecs := [{ id := 1, fields :=
      { company := some "Google LLC", title := some "Engineer",
        startDate := some "2020-01-01", endDate := some "2021-01-01",
        technologies := some "Python" } }],
    salaryRecs := [{ id := 2, fields :=
      { preferredRate := some 90, minimumRate := some 80,
        currency := some "USD", availability := some 25 } }],
    snapshot := none, nextId := 3 }

/-- A store whose salary record has no Currency value: a concrete input on
which the round trip materializes the default and changes the stored field
values. -/
def absentCurrencyStore : Store :=
  { personalRecs := [],
    workRecs := [],
    salaryRecs := [{ id := 0, fields :=
      { preferredRate := some 90, minimumRate := some 80,
        currency := none, availability := some 25 } }],
    snapshot := none, nextId := 1 }

/-- A store with a personal record and a salary record but zero linked
WorkExperience records. -/
def noWorkStore : Store :=
  { personalRecs := [{ id := 0, fields :=
      { fullName := some "Jane Doe", email := some "jane@example.com",
        location := some "USA", linkedin := some "linkedin.com/in/jane" } }],
    workRecs := [],
    salaryRecs := [{ id := 1, fields :=
      { preferredRate := some 90, minimumRate := some 80,
        currency := some "USD", availability := some 25 } }],
    snapshot := none, nextId := 2 }

/-- A parsed snapshot whose experience list is present but empty. -/
def emptyExperienceSnapshot : CompressedData :=
  { personal := some
      ⟨some "Jane Doe", some "jane@example.com", some "USA", some "linkedin.com/in/jane"⟩,
    experience := some [],
    salary := some ⟨some 90, some 80, some "USD", some 25⟩ }

/-! ## Helper lemmas -/

/-- The substring scan agrees with contiguous-sublist membership. -/
theorem containsSub_eq_true_iff (n : List Char) :
    ∀ h : List Char, containsSub n h = true ↔ n <:+: h := by
  intro h
  induction h with
  | nil =>
    simp only [containsSub, List.isEmpty_iff]
    constructor
    · intro he
      simp [he]
    · intro hinf
      exact List.eq_nil_of_infix_nil hinf
  | cons c t ih =>
    simp only [containsSub, Bool.or_eq_true, List.isPrefixOf_iff_prefix, ih]
    exact (List.infix_cons_iff).symm

/-- The executable substring test decides `SubstringOf`. -/
theorem pyContains_eq_true_iff (hay needle : String) :
    pyContains hay needle = true ↔ SubstringOf needle hay :=
  containsSub_eq_true_iff needle.data hay.data

/-! ## Claims about the Eligibility Evaluator -/

/-- C1: the tier-1 company condition holds exactly when some entry's
company name, lower-cased, has a member of the fixed tier-1 set as a
contiguous substring (the set is stored lower-cased, so this is the
case-insensitive containment the spec describes); in particular the company
field "Google LLC" satisfies the condition for "Google". -/
theorem tier1_condition_iff_substring :
    (∀ exps : List ExperienceEntry,
      ((check_tier1_company exps).1 = true ↔
        ∃ e ∈ exps, ∃ t ∈ TIER1_COMPANIES, SubstringOf t (pyLower (e.company.getD "")))) ∧
    (check_tier1_company [googleLLCEntry]).1 = true := by
  constructor
  · intro exps
    induction exps with
    | nil => simp [check_tier1_company]
    | cons job rest ih =>
      simp only [check_tier1_company]
      cases hfind : TIER1_COMPANIES.find? (fun tier1 => pyContains (pyLower (job.company.getD "")) tier1) with
      | some t =>
        constructor
        · intro _
          exact ⟨job, List.mem_cons_self _ _, t, List.mem_of_find?_eq_some hfind,
            (pyContains_eq_true_iff _ _).mp (List.find?_some hfind)⟩
        · intro _
          rfl
      | none =>
        have hnone : ∀ t ∈ TIER1_COMPANIES,
            ¬ pyContains (pyLower (job.company.getD "")) t = true :=
          fun t ht => List.find?_eq_none.mp hfind t ht
        simp only [ih]
        constructor
        · rintro ⟨e, he, t, ht, hsub⟩
          exact ⟨e, List.mem_cons_of_mem _ he, t, ht, hsub⟩
        · rintro ⟨e, he, t, ht, hsub⟩
          rcases List.mem_cons.mp he with rfl | he_rest
          · exact absurd ((pyContains_eq_true_iff _ _).mpr hsub) (hnone t ht)
          · exact ⟨e, he_rest, t, ht, hsub⟩
  · decide

/-- C2: any blacklisted deceptive near-match term occurring anywhere in the
normalized location string forces rejection, before and regardless of any
positive approved-region match; "New Delhi, India" passes while
"Melbourne, Australia" and "Indianapolis, Indiana" are rejected. -/
theorem location_blacklist_precedence :
    (∀ loc : String,
      (∃ b ∈ LOCATION_BLACKLIST, SubstringOf b (pyStrip (pyLower loc))) →
      check_location loc = false) ∧
    check_location "New Delhi, India" = true ∧
    check_location "Melbourne, Australia" = false ∧
    check_location "Indianapolis, Indiana" = false := by
  refine ⟨?_, by decide, by decide, by decide⟩
  rintro loc ⟨b, hb, hsub⟩
  have hany : LOCATION_BLACKLIST.any (fun b => pyContains (pyStrip (pyLower loc)) b) = true :=
    List.any_eq_true.mpr ⟨b, hb, (pyContains_eq_true_iff _ _).mpr hsub⟩
  rw [check_location]
  by_cases hempty : loc = ""
  · simp [hempty]
  · simp [hempty, hany]

/-- Every entry contributes a nonnegative number of days. -/
theorem entryDays_nonneg (parseDate : String → Option Int) (now : Int)
    (job : ExperienceEntry) : 0 ≤ entryDays parseDate now job := by
  simp only [entryDays]
  repeat' split
  all_goals first
    | exact le_refl 0
    | (norm_num [daysPerYear]; done)
    | exact_mod_cast Int.sub_nonneg.mpr (by omega)

/-- Every entry contributes at most exactly 50 years' worth of days. -/
theorem entryDays_le_cap (parseDate : String → Option Int) (now : Int)
    (job : ExperienceEntry) : entryDays parseDate now job ≤ daysPerYear * 50 := by
  simp only [entryDays]
  repeat' split
  all_goals first
    | (norm_num [daysPerYear]; done)
    | exact le_of_not_lt (by assumption)

/-- C3: for every date parser, every current day and every experience
list, the computed total years of experience is nonnegative, and each
single entry contributes a nonnegative number of years that is at most 50
(spans above 50 years are capped at exactly 50 before summing). -/
theorem tenure_nonneg_and_capped (parseDate : String → Option Int) (now : Int)
    (jobs : List ExperienceEntry) :
    0 ≤ calculate_years_of_experience parseDate now jobs ∧
    ∀ job ∈ jobs, 0 ≤ entryDays parseDate now job ∧
      entryDays parseDate now job / daysPerYear ≤ 50 := by
  have hpos : (0 : ℚ) < daysPerYear := by norm_num [daysPerYear]
  constructor
  · apply div_nonneg _ (le_of_lt hpos)
    apply List.sum_nonneg
    intro x hx
    rcases List.mem_map.mp hx with ⟨job, _, rfl⟩
    exact entryDays_nonneg parseDate now job
  · intro job _
    refine ⟨entryDays_nonneg parseDate now job, ?_⟩
    have hle := entryDays_le_cap parseDate now job
    calc entryDays parseDate now job / daysPerYear
        ≤ daysPerYear * 50 / daysPerYear := by
          exact div_le_div_of_nonneg_right hle hpos.le
      _ = 50 := by field_simp

/-- C4: the compensation criterion passes exactly when the preferred rate
is at most 100, the weekly availability is at least 20, and the currency is
the default unit USD; any non-default currency fails at once with the fixed
not-comparable reason (no conversion is attempted). -/
theorem compensation_pass_iff (p : Option PersonalSection)
    (e : Option (List ExperienceEntry)) (s : SalarySection) :
    ((evaluate_compensation_criteria ⟨p, e, some s⟩).1 = true ↔
      (s.preferred_rate.getD 0 ≤ 100 ∧ 20 ≤ s.availability.getD 0 ∧
        s.currency.getD "USD" = "USD")) ∧
    (s.currency.getD "USD" ≠ "USD" →
      evaluate_compensation_criteria ⟨p, e, some s⟩ =
        (false, "Currency is " ++ s.currency.getD "USD" ++ ", not USD (cannot compare rates)")) := by
  constructor
  · simp only [evaluate_compensation_criteria]
    split
    · rename_i hcur
      simp [hcur]
    · rename_i hcur
      rw [not_not] at hcur
      split
      · rename_i hok
        simp [hok.1, hok.2, hcur]
      · rename_i hfail
        split
        · rename_i hrate
          simp only [Bool.false_eq_true, false_iff]
          intro ⟨h1, _, _⟩
          exact hrate h1
        · rename_i hrate
          rw [not_not] at hrate
          simp only [Bool.false_eq_true, false_iff]
          intro ⟨h1, h2, _⟩
          exact hfail ⟨h1, h2⟩
  · intro hcur
    simp only [evaluate_compensation_criteria]
    rw [if_pos hcur]

/-! ## Claims about the Aggregator/Materializer -/

/-- A complete PersonalDetails record survives the section round trip. -/
theorem personal_round {f : PersonalFields} (h : personalComplete f = true) :
    personalFieldsOf (personalSectionOf f) = f := by
  obtain ⟨n, e, l, li⟩ := f
  cases n <;> cases e <;> cases l <;> cases li <;>
    simp_all [personalComplete, personalFieldsOf, personalSectionOf]

/-- A complete WorkExperience record survives the entry round trip. -/
theorem work_round {f : WorkFields} (h : workComplete f = true) :
    workFieldsOf (experienceEntryOf f) = f := by
  obtain ⟨c, t, st, en, te⟩ := f
  cases c <;> cases t <;> cases st <;> cases en <;> cases te <;>
    simp_all [workComplete, workFieldsOf, experienceEntryOf]

/-- A complete SalaryPreference record survives the section round trip. -/
theorem salary_round {f : SalaryFields} (h : salaryComplete f = true) :
    salaryFieldsOf (salarySectionOf f) = f := by
  obtain ⟨p, m, c, a⟩ := f
  cases p <;> cases m <;> cases c <;> cases a <;>
    simp_all [salaryComplete, salaryFieldsOf, salarySectionOf]

/-- Replacement records carry exactly the requested field sets, in order. -/
theorem freshWorkRecs_map_fields (fs : List WorkFields) :
    ∀ firstId, (freshWorkRecs firstId fs).map (fun r => r.fields) = fs := by
  induction fs with
  | nil => intro i; rfl
  | cons f t ih => intro i; simp [freshWorkRecs, ih]

/-- C5 (amended): when every scalar field of the applicant's child records
is present, `materialize(aggregate(x))` leaves the PersonalDetails and
SalaryPreference records untouched (identities and field values), and
leaves the WorkExperience field content equal entry for entry, although the
replaced records carry fresh identities. -/
theorem round_trip_preserves (s : Store)
    (hp : ∀ r ∈ s.personalRecs, personalComplete r.fields = true)
    (hw : ∀ r ∈ s.workRecs, workComplete r.fields = true)
    (hs : ∀ r ∈ s.salaryRecs, salaryComplete r.fields = true) :
    (materialize_aggregate s).1.personalRecs = s.personalRecs ∧
    (materialize_aggregate s).1.salaryRecs = s.salaryRecs ∧
    (materialize_aggregate s).1.workRecs.map (fun r => r.fields) =
      s.workRecs.map (fun r => r.fields) := by
  obtain ⟨pr, wr, sr, snap, nid⟩ := s
  cases pr with
  | nil =>
    cases wr with
    | nil =>
      cases sr with
      | nil =>
        simp [materialize_aggregate, compress_applicant_data, decompress_applicant_data]
      | cons srh srt =>
        have hsr := hs srh (List.mem_cons_self _ _)
        simp [materialize_aggregate, compress_applicant_data, decompress_applicant_data,
          upsert_salary_preferences, salary_round hsr]
    | cons wrh wrt =>
      cases sr with
      | nil =>
        simp only [materialize_aggregate, compress_applicant_data, decompress_applicant_data,
          upsert_work_experiences]
        simp [List.map_map, freshWorkRecs_map_fields]
        exact ⟨work_round (hw wrh (List.mem_cons_self _ _)),
          fun a ha => work_round (hw a (List.mem_cons_of_mem _ ha))⟩
      | cons srh srt =>
        have hsr := hs srh (List.mem_cons_self _ _)
        simp only [materialize_aggregate, compress_applicant_data, decompress_applicant_data,
          upsert_work_experiences, upsert_salary_preferences]
        simp [List.map_map, freshWorkRecs_map_fields, salary_round hsr]
        exact ⟨work_round (hw wrh (List.mem_cons_self _ _)),
          fun a ha => work_round (hw a (List.mem_cons_of_mem _ ha))⟩
  | cons prh prt =>
    have hpr := hp prh (List.mem_cons_self _ _)
    cases wr with
    | nil =>
      cases sr with
      | nil =>
        simp [materialize_aggregate, compress_applicant_data, decompress_applicant_data,
          upsert_personal_details, personal_round hpr]
      | cons srh srt =>
        have hsr := hs srh (List.mem_cons_self _ _)
        simp [materialize_aggregate, compress_applicant_data, decompress_applicant_data,
          upsert_personal_details, upsert_salary_preferences, personal_round hpr,
          salary_round hsr]
    | cons wrh wrt =>
      cases sr with
      | nil =>
        simp only [materialize_aggregate, compress_applicant_data, decompress_applicant_data,
          upsert_personal_details, upsert_work_experiences]
        simp [List.map_map, freshWorkRecs_map_fields, personal_round hpr]
        exact ⟨work_round (hw wrh (List.mem_cons_self _ _)),
          fun a ha => work_round (hw a (List.mem_cons_of_mem _ ha))⟩
      | cons srh srt =>
        have hsr := hs srh (List.mem_cons_self _ _)
        simp only [materialize_aggregate, compress_applicant_data, decompress_applicant_data,
          upsert_personal_details, upsert_work_experiences, upsert_salary_preferences]
        simp [List.map_map, freshWorkRecs_map_fields, personal_round hpr, salary_round hsr]
        exact ⟨work_round (hw wrh (List.mem_cons_self _ _)),
          fun a ha => work_round (hw a (List.mem_cons_of_mem _ ha))⟩

/-- Witness for C5: the amended round-trip theorem applied to a concrete
complete store. -/
theorem round_trip_preserves_witness :
    (materialize_aggregate sampleCompleteStore).1.personalRecs =
        sampleCompleteStore.personalRecs ∧
    (materialize_aggregate sampleCompleteStore).1.salaryRecs =
        sampleCompleteStore.salaryRecs ∧
    (materialize_aggregate sampleCompleteStore).1.workRecs.map (fun r => r.fields) =
        sampleCompleteStore.workRecs.map (fun r => r.fields) :=
  round_trip_preserves sampleCompleteStore (by decide) (by decide) (by decide)

/-- Counterexample for C5 as stated: on a store whose salary record has no
Currency value, the round trip rewrites that record's field values (the
absent currency becomes the default "USD"), so field values are not always
preserved. -/
theorem round_trip_changes_absent_currency :
    (materialize_aggregate absentCurrencyStore).1.salaryRecs.map (fun r => r.fields) ≠
      absentCurrencyStore.salaryRecs.map (fun r => r.fields) := by
  decide

/-- C6 (amended): the script aggregation yields no snapshot exactly when
the personal-details link, the work-experience link, or the
salary-preferences link resolves to zero records, and whenever it fails the
store — in particular any previously stored snapshot — is left untouched. -/
theorem aggregate_v03_failure_iff (s : Store) :
    (compress_applicant_data_v03 s = none ↔
      (s.personalRecs = [] ∨ s.workRecs = [] ∨ s.salaryRecs = [])) ∧
    (compress_applicant_data_v03 s = none → compress_step_v03 s = s) := by
  constructor
  · obtain ⟨pr, wr, sr, snap, nid⟩ := s
    cases pr <;> cases wr <;> cases sr <;> simp [compress_applicant_data_v03]
  · intro h
    simp [compress_step_v03, h]

/-- Counterexample for C6 as stated: on a store with a personal record and
a salary record but no WorkExperience, aggregation fails even though both
required one-to-one links resolve — the absence of WorkExperience alone
causes the failure. -/
theorem aggregate_v03_fails_without_work :
    compress_applicant_data_v03 noWorkStore = none ∧
    noWorkStore.personalRecs ≠ [] ∧ noWorkStore.salaryRecs ≠ [] := by
  decide

/-- C10: materializing a snapshot whose experience list is empty performs
no WorkExperience deletion or creation and leaves every stored
WorkExperience record in place, while the personal and salary sections,
when present and non-empty, are still upserted. -/
theorem decompress_empty_experience_frame (s : Store) (d : CompressedData)
    (hemp : d.experience = some []) :
    (decompress_applicant_data d s).1.workRecs = s.workRecs ∧
    (∀ op ∈ (decompress_applicant_data d s).2, op.isWorkOp = false) ∧
    (d.personal.isSome = true →
      ∃ op ∈ (decompress_applicant_data d s).2, op.isPersonalUpsert = true) ∧
    (d.salary.isSome = true →
      ∃ op ∈ (decompress_applicant_data d s).2, op.isSalaryUpsert = true) := by
  obtain ⟨dp, de, ds⟩ := d
  simp only at hemp
  subst hemp
  obtain ⟨pr, wr, sr, snap, nid⟩ := s
  cases dp <;> cases ds <;> cases pr <;> cases sr <;>
    simp [decompress_applicant_data, upsert_personal_details, upsert_salary_preferences,
      StoreOp.isWorkOp, StoreOp.isPersonalUpsert, StoreOp.isSalaryUpsert]

/-- Witness for C10: the frame theorem applied to a concrete store and the
concrete empty-experience snapshot. -/
theorem decompress_empty_experience_frame_witness :
    (decompress_applicant_data emptyExperienceSnapshot sampleCompleteStore).1.workRecs =
        sampleCompleteStore.workRecs ∧
    (∀ op ∈ (decompress_applicant_data emptyExperienceSnapshot sampleCompleteStore).2,
      op.isWorkOp = false) ∧
    (emptyExperienceSnapshot.personal.isSome = true →
      ∃ op ∈ (decompress_applicant_data emptyExperienceSnapshot sampleCompleteStore).2,
        op.isPersonalUpsert = true) ∧
    (emptyExperienceSnapshot.salary.isSome = true →
      ∃ op ∈ (decompress_applicant_data emptyExperienceSnapshot sampleCompleteStore).2,
        op.isSalaryUpsert = true) :=
  decompress_empty_experience_frame sampleCompleteStore emptyExperienceSnapshot (by decide)

/-! ## Claims about the Enrichment Service retry policy -/

/-- The loop never makes more provider calls than iterations remain. -/
theorem retryAux_attempts_le (o : Nat → ProviderOutcome) (b : ℚ) (m : Nat) :
    ∀ r a, (retryAux o b m a r).attemptsMade ≤ r := by
  intro r
  induction r with
  | zero => intro a; simp [retryAux]
  | succ r ih =>
    intro a
    rw [retryAux]
    cases o a <;> simp [Nat.succ_le_succ (ih (a + 1))]

/-- Every backoff sleep recorded by the loop lasts `base * 2 ^ attempt`
seconds. -/
theorem retryAux_sleeps (o : Nat → ProviderOutcome) (b : ℚ) (m : Nat) :
    ∀ r a, ∀ p ∈ (retryAux o b m a r).sleeps, p.2 = b * 2 ^ p.1 := by
  intro r
  induction r with
  | zero => intro a p hp; simp [retryAux] at hp
  | succ r ih =>
    intro a p hp
    rw [retryAux] at hp
    cases hoa : o a <;> rw [hoa] at hp <;> simp only [] at hp
    case ok => simp at hp
    case badResponse => simp at hp
    case otherError => simp at hp
    case rateLimit =>
      rcases List.mem_cons.mp hp with rfl | hmem
      · rfl
      · exact ih (a + 1) p hmem
    case connectionError =>
      rcases List.mem_append.mp hp with hleft | hmem
      · by_cases ham : a + 1 < m
        · rw [if_pos ham] at hleft
          rcases List.mem_singleton.mp hleft with rfl
          rfl
        · rw [if_neg ham] at hleft
          simp at hleft
      · exact ih (a + 1) p hmem
    case apiError =>
      rcases List.mem_append.mp hp with hleft | hmem
      · by_cases ham : a + 1 < m
        · rw [if_pos ham] at hleft
          rcases List.mem_singleton.mp hleft with rfl
          rfl
        · rw [if_neg ham] at hleft
          simp at hleft
      · exact ih (a + 1) p hmem

/-- When every outcome is transient, the loop uses its whole budget and
ends unsuccessfully. -/
theorem retryAux_all_transient (o : Nat → ProviderOutcome) (b : ℚ) (m : Nat) :
    ∀ r a, (∀ i, a ≤ i → i < a + r → isTransient (o i) = true) →
    (retryAux o b m a r).attemptsMade = r ∧ (retryAux o b m a r).succeeded = false := by
  intro r
  induction r with
  | zero => intro a _; simp [retryAux]
  | succ r ih =>
    intro a h
    have ha : isTransient (o a) = true := h a (le_refl a) (by omega)
    have hrest := ih (a + 1) (fun i h1 h2 => h i (by omega) (by omega))
    rw [retryAux]
    cases hoa : o a <;> rw [hoa] at ha <;> simp [isTransient] at ha <;>
      simp [hrest.1, hrest.2]

/-- An immediate-abort outcome after a run of transient ones stops the loop
at once. -/
theorem retryAux_abort (o : Nat → ProviderOutcome) (b : ℚ) (m : Nat) :
    ∀ r a k, k < r → (∀ i, a ≤ i → i < a + k → isTransient (o i) = true) →
    isImmediateAbort (o (a + k)) = true →
    (retryAux o b m a r).attemptsMade = k + 1 ∧ (retryAux o b m a r).succeeded = false := by
  intro r
  induction r with
  | zero => intro a k hk _ _; exact absurd hk (Nat.not_lt_zero k)
  | succ r ih =>
    intro a k hk htr hab
    cases k with
    | zero =>
      rw [retryAux]
      have hab0 : isImmediateAbort (o a) = true := by simpa using hab
      cases hoa : o a <;> rw [hoa] at hab0 <;> simp [isImmediateAbort] at hab0 <;> simp
    | succ k =>
      have ha : isTransient (o a) = true := htr a (le_refl a) (by omega)
      have hrest := ih (a + 1) k (by omega)
        (fun i h1 h2 => htr i (by omega) (by omega))
        (by have heq : a + 1 + k = a + (k + 1) := by omega
            rw [heq]; exact hab)
      rw [retryAux]
      cases hoa : o a <;> rw [hoa] at ha <;> simp [isTransient] at ha <;>
        simp [hrest.1, hrest.2]


/-- C8: the retry loop makes at most `max_retries` provider calls
(default 3); every backoff delay is `base * 2 ^ attempt` — doubling each
attempt from the configured base (default 1s); all-transient runs use the
whole budget; and a non-retryable failure after any run of transient ones
aborts immediately, consuming no further budget. The final conjunct runs
the defaults: three rate-limited attempts sleep at attempts 0, 1, 2. -/
theorem retry_policy (outcomes : Nat → ProviderOutcome) (base : ℚ) (max_retries : Nat) :
    (call_openai_with_retry outcomes base max_retries).attemptsMade ≤ max_retries ∧
    (∀ p ∈ (call_openai_with_retry outcomes base max_retries).sleeps,
      p.2 = base * 2 ^ p.1) ∧
    ((∀ i, i < max_retries → isTransient (outcomes i) = true) →
      (call_openai_with_retry outcomes base max_retries).attemptsMade = max_retries ∧
      (call_openai_with_retry outcomes base max_retries).succeeded = false) ∧
    (∀ k, k < max_retries → (∀ i, i < k → isTransient (outcomes i) = true) →
      isImmediateAbort (outcomes k) = true →
      (call_openai_with_retry outcomes base max_retries).attemptsMade = k + 1 ∧
      (call_openai_with_retry outcomes base max_retries).succeeded = false) ∧
    ((call_openai_with_retry (fun _ => ProviderOutcome.rateLimit) 1 3).sleeps.map Prod.fst =
        [0, 1, 2] ∧
      (call_openai_with_retry (fun _ => ProviderOutcome.rateLimit) 1 3).attemptsMade = 3) := by
  refine ⟨retryAux_attempts_le outcomes base max_retries max_retries 0,
    retryAux_sleeps outcomes base max_retries max_retries 0, ?_, ?_, by decide, by decide⟩
  · intro h
    exact retryAux_all_transient outcomes base max_retries max_retries 0
      (fun i _ h2 => h i (by omega))
  · intro k hk htr hab
    exact retryAux_abort outcomes base max_retries max_retries 0 k hk
      (fun i _ h2 => htr i (by omega)) (by simpa using hab)

/-! ## Claims about the Enrichment Service response parsing -/

/-- One parsing step keeps the score at 0 when the line is not a parseable
score line. -/
theorem parseLine_score_zero (acc : LLMParseResult × Option CurField) (l : String)
    (h : pyStartsWith (pyStrip l) "Score:" = true →
      pyInt? (pyStrip (pyReplace (pyStrip l) "Score:" "")) = none)
    (hacc : acc.1.score = 0) : (parseLine acc l).1.score = 0 := by
  simp only [parseLine]
  repeat' split
  all_goals simp_all

/-- One parsing step keeps the summary empty (and the continuation state
away from the summary field) when the line is not a summary line. -/
theorem parseLine_summary_inv (acc : LLMParseResult × Option CurField) (l : String)
    (h : pyStartsWith (pyStrip l) "Summary:" = false)
    (hacc : acc.1.summary = "" ∧ acc.2 ≠ some CurField.summary) :
    (parseLine acc l).1.summary = "" ∧ (parseLine acc l).2 ≠ some CurField.summary := by
  simp only [parseLine]
  repeat' split
  all_goals simp_all

/-- Like `parseLine_summary_inv`, for the issues field. -/
theorem parseLine_issues_inv (acc : LLMParseResult × Option CurField) (l : String)
    (h : pyStartsWith (pyStrip l) "Issues:" = false)
    (hacc : acc.1.issues = "" ∧ acc.2 ≠ some CurField.issues) :
    (parseLine acc l).1.issues = "" ∧ (parseLine acc l).2 ≠ some CurField.issues := by
  simp only [parseLine]
  repeat' split
  all_goals simp_all

/-- Like `parseLine_summary_inv`, for the follow-ups field. -/
theorem parseLine_follow_inv (acc : LLMParseResult × Option CurField) (l : String)
    (h : pyStartsWith (pyStrip l) "Follow-Ups:" = false)
    (hacc : acc.1.follow_ups = "" ∧ acc.2 ≠ some CurField.follow_ups) :
    (parseLine acc l).1.follow_ups = "" ∧ (parseLine acc l).2 ≠ some CurField.follow_ups := by
  simp only [parseLine]
  repeat' split
  all_goals simp_all


/-- The whole loop keeps the score at 0 when no line carries a parseable
score. -/
theorem foldl_score_zero :
    ∀ (lines : List String) (acc : LLMParseResult × Option CurField),
    (∀ l ∈ lines, pyStartsWith (pyStrip l) "Score:" = true →
      pyInt? (pyStrip (pyReplace (pyStrip l) "Score:" "")) = none) →
    acc.1.score = 0 → ((lines.foldl parseLine acc).1).score = 0 := by
  intro lines
  induction lines with
  | nil => intro acc _ hacc; exact hacc
  | cons l t ih =>
    intro acc h hacc
    exact ih (parseLine acc l) (fun x hx => h x (List.mem_cons_of_mem l hx))
      (parseLine_score_zero acc l (h l (List.mem_cons_self l t)) hacc)

/-- The whole loop keeps the summary empty when no line is labelled
`Summary:`. -/
theorem foldl_summary_empty :
    ∀ (lines : List String) (acc : LLMParseResult × Option CurField),
    (∀ l ∈ lines, pyStartsWith (pyStrip l) "Summary:" = false) →
    acc.1.summary = "" ∧ acc.2 ≠ some CurField.summary →
    ((lines.foldl parseLine acc).1).summary = "" := by
  intro lines
  induction lines with
  | nil => intro acc _ hacc; exact hacc.1
  | cons l t ih =>
    intro acc h hacc
    exact ih (parseLine acc l) (fun x hx => h x (List.mem_cons_of_mem l hx))
      (parseLine_summary_inv acc l (h l (List.mem_cons_self l t)) hacc)

/-- The whole loop keeps the issues empty when no line is labelled
`Issues:`. -/
theorem foldl_issues_empty :
    ∀ (lines : List String) (acc : LLMParseResult × Option CurField),
    (∀ l ∈ lines, pyStartsWith (pyStrip l) "Issues:" = false) →
    acc.1.issues = "" ∧ acc.2 ≠ some CurField.issues →
    ((lines.foldl parseLine acc).1).issues = "" := by
  intro lines
  induction lines with
  | nil => intro acc _ hacc; exact hacc.1
  | cons l t ih =>
    intro acc h hacc
    exact ih (parseLine acc l) (fun x hx => h x (List.mem_cons_of_mem l hx))
      (parseLine_issues_inv acc l (h l (List.mem_cons_self l t)) hacc)

/-- The whole loop keeps the follow-ups empty when no line is labelled
`Follow-Ups:`. -/
theorem foldl_follow_empty :
    ∀ (lines : List String) (acc : LLMParseResult × Option CurField),
    (∀ l ∈ lines, pyStartsWith (pyStrip l) "Follow-Ups:" = false) →
    acc.1.follow_ups = "" ∧ acc.2 ≠ some CurField.follow_ups →
    ((lines.foldl parseLine acc).1).follow_ups = "" := by
  intro lines
  induction lines with
  | nil => intro acc _ hacc; exact hacc.1
  | cons l t ih =>
    intro acc h hacc
    exact ih (parseLine acc l) (fun x hx => h x (List.mem_cons_of_mem l hx))
      (parseLine_follow_inv acc l (h l (List.mem_cons_self l t)) hacc)

/-- C9: `parse_llm_response` is total (it is a plain function into a result
record — the source raises nothing); when no line starts with `Score:`, or
every such line's text fails integer parsing, the returned score is 0,
which sits below the documented 1..10 range; and summary, issues and
follow-ups each default to the empty string when their labelled lines are
absent. -/
theorem parse_response_total_and_defaults :
    (∀ s : String,
      ((∀ l ∈ responseLines s, pyStartsWith (pyStrip l) "Score:" = true →
          pyInt? (pyStrip (pyReplace (pyStrip l) "Score:" "")) = none) →
        (parse_llm_response s).score = 0) ∧
      ((∀ l ∈ responseLines s, pyStartsWith (pyStrip l) "Summary:" = false) →
        (parse_llm_response s).summary = "") ∧
      ((∀ l ∈ responseLines s, pyStartsWith (pyStrip l) "Issues:" = false) →
        (parse_llm_response s).issues = "") ∧
      ((∀ l ∈ responseLines s, pyStartsWith (pyStrip l) "Follow-Ups:" = false) →
        (parse_llm_response s).follow_ups = "")) ∧
    parse_llm_response "" = { summary := "", score := 0, issues := "", follow_ups := "" } ∧
    (parse_llm_response "").score < 1 := by
  refine ⟨fun s => ⟨?_, ?_, ?_, ?_⟩, by decide, by decide⟩
  · intro h
    exact foldl_score_zero (responseLines s) _ h rfl
  · intro h
    exact foldl_summary_empty (responseLines s) _ h ⟨rfl, by simp⟩
  · intro h
    exact foldl_issues_empty (responseLines s) _ h ⟨rfl, by simp⟩
  · intro h
    exact foldl_follow_empty (responseLines s) _ h ⟨rfl, by simp⟩

/-! ## Claims about the Enrichment Service content hash -/

/-- Entry serialization is a map over the entries. -/
theorem dumpsEntries_eq_map (es : List (String × Json)) :
    dumpsEntries es = es.map (fun p => (p.1, dumps p.2)) := by
  induction es with
  | nil => rfl
  | cons p t ih =>
    obtain ⟨k, v⟩ := p
    simp [dumpsEntries, ih]

/-- Sorting by key is invariant under permutation when the keys are
distinct. -/
theorem sortPairs_congr {l₁ l₂ : List (String × String)} (hperm : l₁.Perm l₂)
    (hnd : (l₂.map Prod.fst).Nodup) : sortPairs l₁ = sortPairs l₂ := by
  have hs1 : List.Sorted keyLE (sortPairs l₁) := List.sorted_insertionSort keyLE l₁
  have hs2 : List.Sorted keyLE (sortPairs l₂) := List.sorted_insertionSort keyLE l₂
  have hp : (sortPairs l₁).Perm (sortPairs l₂) :=
    ((List.perm_insertionSort keyLE l₁).trans hperm).trans
      (List.perm_insertionSort keyLE l₂).symm
  have hnd2 : (sortPairs l₂).Pairwise (fun p q => p.1 ≠ q.1) := by
    have hmap : ((sortPairs l₂).map Prod.fst).Perm (l₂.map Prod.fst) :=
      (List.perm_insertionSort keyLE l₂).map Prod.fst
    have : ((sortPairs l₂).map Prod.fst).Nodup := hmap.nodup_iff.mpr hnd
    simpa [List.Nodup, List.pairwise_map] using this
  have hnd1 : (sortPairs l₁).Pairwise (fun p q => p.1 ≠ q.1) :=
    (hp.pairwise_iff (fun hxy => hxy.symm)).mpr hnd2
  have hlt1 : List.Sorted keyLT (sortPairs l₁) :=
    (hs1.and hnd1).imp (fun hpq => lt_of_le_of_ne hpq.1 hpq.2)
  have hlt2 : List.Sorted keyLT (sortPairs l₂) :=
    (hs2.and hnd2).imp (fun hpq => lt_of_le_of_ne hpq.1 hpq.2)
  exact List.eq_of_perm_of_sorted hp hlt1 hlt2

/-- Two insertion orders of the same object entries serialize
identically. -/
theorem dumps_obj_perm {es fs : List (String × Json)} (h : es.Perm fs)
    (hnd : (fs.map Prod.fst).Nodup) : dumps (Json.obj es) = dumps (Json.obj fs) := by
  simp only [dumps]
  have : sortPairs (dumpsEntries es) = sortPairs (dumpsEntries fs) := by
    apply sortPairs_congr
    · rw [dumpsEntries_eq_map, dumpsEntries_eq_map]
      exact h.map _
    · rw [dumpsEntries_eq_map]
      simpa [List.map_map, Function.comp] using hnd
  rw [this]

/-- Any representation of an object serializes like the canonical entry
order. -/
theorem dumps_of_representsObj {j : Json} {pairs : List (String × Json)}
    (h : RepresentsObj j pairs) (hnd : (pairs.map Prod.fst).Nodup) :
    dumps j = dumps (Json.obj pairs) := by
  obtain ⟨es, rfl, hperm⟩ := h
  exact dumps_obj_perm hperm hnd


/-- The personal section's keys are distinct. -/
theorem personalPairs_keys_nodup (p : Option PersonalSection) :
    ((personalPairs p).map Prod.fst).Nodup := by
  cases p <;> simp [personalPairs]

/-- The salary section's keys are distinct. -/
theorem salaryPairs_keys_nodup (p : Option SalarySection) :
    ((salaryPairs p).map Prod.fst).Nodup := by
  cases p <;> simp [salaryPairs]

/-- An experience entry's keys are distinct. -/
theorem experiencePairs_keys_nodup (e : ExperienceEntry) :
    ((experiencePairs e).map Prod.fst).Nodup := by
  simp [experiencePairs]

/-- Two representations of the same section serialize identically. -/
theorem dumps_section_eq {j1 j2 : Json} {pairs : List (String × Json)}
    (h1 : RepresentsObj j1 pairs) (h2 : RepresentsObj j2 pairs)
    (hnd : (pairs.map Prod.fst).Nodup) : dumps j1 = dumps j2 :=
  (dumps_of_representsObj h1 hnd).trans (dumps_of_representsObj h2 hnd).symm

/-- Two representations of the same experience list serialize element for
element. -/
theorem dumpsList_eq_of_forall2 :
    ∀ (entries : List ExperienceEntry) (js1 js2 : List Json),
    List.Forall₂ (fun je e => RepresentsObj je (experiencePairs e)) js1 entries →
    List.Forall₂ (fun je e => RepresentsObj je (experiencePairs e)) js2 entries →
    dumpsList js1 = dumpsList js2 := by
  intro entries
  induction entries with
  | nil =>
    intro js1 js2 h1 h2
    cases h1
    cases h2
    rfl
  | cons e t ih =>
    intro js1 js2 h1 h2
    cases h1 with
    | cons hx1 ht1 =>
      cases h2 with
      | cons hx2 ht2 =>
        simp only [dumpsList]
        rw [dumps_section_eq hx1 hx2 (experiencePairs_keys_nodup e), ih _ _ ht1 ht2]

/-- Two representations of the same experience list serialize
identically. -/
theorem representsExperience_dumps_eq {j1 j2 : Json} {entries : List ExperienceEntry}
    (h1 : RepresentsExperience j1 entries) (h2 : RepresentsExperience j2 entries) :
    dumps j1 = dumps j2 := by
  obtain ⟨js1, rfl, hf1⟩ := h1
  obtain ⟨js2, rfl, hf2⟩ := h2
  simp only [dumps]
  rw [dumpsList_eq_of_forall2 entries js1 js2 hf1 hf2]

/-- C7: for every digest function, two JSON forms of the same snapshot —
whatever insertion order their objects' keys have, at the top level and in
every nested section — receive the same content hash. -/
theorem content_hash_stable (digest : String → String) (d : CompressedData)
    (j1 j2 : Json) (h1 : RepresentsSnapshot j1 d) (h2 : RepresentsSnapshot j2 d) :
    compute_json_hash digest j1 = compute_json_hash digest j2 := by
  obtain ⟨jp1, je1, js1, e1, hp1, he1, hs1, rfl, hperm1⟩ := h1
  obtain ⟨jp2, je2, js2, e2, hp2, he2, hs2, rfl, hperm2⟩ := h2
  unfold compute_json_hash
  congr 1
  have hpe : dumps jp1 = dumps jp2 :=
    dumps_section_eq hp1 hp2 (personalPairs_keys_nodup d.personal)
  have hee : dumps je1 = dumps je2 := representsExperience_dumps_eq he1 he2
  have hse : dumps js1 = dumps js2 :=
    dumps_section_eq hs1 hs2 (salaryPairs_keys_nodup d.salary)
  have hndtop : ∀ a b c : Json,
      (([("personal", a), ("experience", b), ("salary", c)] :
        List (String × Json)).map Prod.fst).Nodup := by
    intro a b c
    simp
  rw [dumps_obj_perm hperm1 (hndtop jp1 je1 js1),
    dumps_obj_perm hperm2 (hndtop jp2 je2 js2)]
  simp only [dumps]
  have : dumpsEntries [("personal", jp1), ("experience", je1), ("salary", js1)] =
      dumpsEntries [("personal", jp2), ("experience", je2), ("salary", js2)] := by
    simp only [dumpsEntries]
    rw [hpe, hee, hse]
  rw [this]

/-- Witness for C7: the identity digest on two key orders of a concrete
snapshot. -/
theorem content_hash_stable_witness :
    compute_json_hash (fun s => s)
      (Json.obj [("personal", Json.obj []), ("experience", Json.arr []),
        ("salary", Json.obj [])]) =
    compute_json_hash (fun s => s)
      (Json.obj [("salary", Json.obj []), ("experience", Json.arr []),
        ("personal", Json.obj [])]) :=
  content_hash_stable (fun s => s) ⟨none, none, none⟩ _ _
    ⟨Json.obj [], Json.arr [], Json.obj [], _,
      ⟨[], rfl, List.Perm.refl _⟩, ⟨[], rfl, List.Forall₂.nil⟩,
      ⟨[], rfl, List.Perm.refl _⟩, rfl, List.Perm.refl _⟩
    ⟨Json.obj [], Json.arr [], Json.obj [], _,
      ⟨[], rfl, List.Perm.refl _⟩, ⟨[], rfl, List.Forall₂.nil⟩,
      ⟨[], rfl, List.Perm.refl _⟩, rfl,
      List.reverse_perm [("personal", Json.obj []), ("experience", Json.arr []),
        ("salary", Json.obj [])]⟩

end ContractorApp
